import Mathlib

/-!
Shallow embedding of `src/wasm_modules/rust_module/src/lib.rs` (Rust, compiled
to WASM in release mode, so fixed-width integer arithmetic wraps).

A Rust `&str` is a sequence of Unicode scalar values; we model it as
`List Nat`, each element a code point.  `u8`/`u32`/`i32` arithmetic is
modelled on `Nat`/`Int` with explicit reduction modulo `2^8`/`2^32`.
-/

/-- Two's-complement truncation of an integer to `i32`: the unique value in
`[-2^31, 2^31)` congruent to `x` modulo `2^32`.  This is the semantics of
Rust's wrapping `i32` arithmetic and of the `as i32` cast. -/
def toI32 (x : Int) : Int :=
  (x + 2147483648) % 4294967296 - 2147483648

/-- Rust `char::to_ascii_lowercase`: maps `A`..`Z` to `a`..`z`, leaves every
other code point (including all non-ASCII letters) unchanged. -/
def toAsciiLowercase (c : Nat) : Nat :=
  if 65 ≤ c ∧ c ≤ 90 then c + 32 else c

/-- Rust `char::is_whitespace`: the Unicode White_Space property.  The full
table (Unicode 15) is: U+0009..U+000D, U+0020, U+0085, U+00A0, U+1680,
U+2000..U+200A, U+2028, U+2029, U+202F, U+205F, U+3000. -/
def charIsWhitespace (c : Nat) : Bool :=
  (9 ≤ c ∧ c ≤ 13) ∨ c = 32 ∨ c = 133 ∨ c = 160 ∨ c = 5760 ∨
  (8192 ≤ c ∧ c ≤ 8202) ∨ c = 8232 ∨ c = 8233 ∨ c = 8239 ∨ c = 8287 ∨
  c = 12288

/-- Rust `char::is_alphanumeric`: true when the code point is in the Unicode
Alphabetic derived property or in the general categories Nd, Nl, No.  We embed
the Unicode table exactly on the Basic Latin and Latin-1 Supplement blocks
(U+0000..U+00FF): digits `0`..`9`, letters `A`..`Z` and `a`..`z`, `ª` (U+00AA),
`²` `³` (U+00B2, U+00B3), `µ` (U+00B5), `¹` `º` (U+00B9, U+00BA), the vulgar
fractions `¼` `½` `¾` (U+00BC..U+00BE), and the Latin-1 letters
U+00C0..U+00D6, U+00D8..U+00F6, U+00F8..U+00FF (`×` U+00D7 and `÷` U+00F7 are
excluded).  Code points above U+00FF are mapped to `false`; no concrete input
below uses such a code point, and every universal theorem below is proved
uniformly in this classifier's values. -/
def charIsAlphanumeric (c : Nat) : Bool :=
  (48 ≤ c ∧ c ≤ 57) ∨ (65 ≤ c ∧ c ≤ 90) ∨ (97 ≤ c ∧ c ≤ 122) ∨
  c = 170 ∨ c = 178 ∨ c = 179 ∨ c = 181 ∨ c = 185 ∨ c = 186 ∨
  (188 ≤ c ∧ c ≤ 190) ∨ (192 ≤ c ∧ c ≤ 214) ∨ (216 ≤ c ∧ c ≤ 246) ∨
  (248 ≤ c ∧ c ≤ 255)

/-- Unicode simple case folding (`CaseFolding.txt`, status C entries), used
only to state the spec's description of `is_palindrome`.  Embedded exactly on
the Basic Latin and Latin-1 Supplement blocks: `A`..`Z` fold to `a`..`z`,
`µ` (U+00B5) folds to Greek `μ` (U+03BC), `À`..`Þ` except `×` (U+00D7) fold to
`à`..`þ`; everything else in U+0000..U+00FF folds to itself.  Code points
above U+00FF are mapped to themselves; no theorem below evaluates this
function there. -/
def simpleCaseFold (c : Nat) : Nat :=
  if 65 ≤ c ∧ c ≤ 90 then c + 32
  else if c = 181 then 956
  else if 192 ≤ c ∧ c ≤ 222 ∧ c ≠ 215 then c + 32
  else c

/-- `reverse_string`: `s.chars().rev().collect()` — reverses the sequence of
Unicode scalar values. -/
def reverse_string (s : List Nat) : List Nat :=
  s.reverse

/-- The intermediate `cleaned` string of `is_palindrome`:
`s.chars().filter(|c| c.is_alphanumeric()).map(|c| c.to_ascii_lowercase()).collect()`. -/
def palindromeCleaned (s : List Nat) : List Nat :=
  (s.filter charIsAlphanumeric).map toAsciiLowercase

/-- `is_palindrome`: `cleaned == cleaned.chars().rev().collect::<String>()`. -/
def is_palindrome (s : List Nat) : Bool :=
  palindromeCleaned s == (palindromeCleaned s).reverse

/-- The palindrome check as the spec's words describe it: strip all
characters that are not alphanumeric, lowercase the remaining characters by
simple case folding, and compare the result to its own reversal. -/
def specPalindromeFold (s : List Nat) : Bool :=
  (s.filter charIsAlphanumeric).map simpleCaseFold ==
    ((s.filter charIsAlphanumeric).map simpleCaseFold).reverse

/-- The palindrome condition with the spec's wording amended to the code's
lowercasing: strip all characters that are not alphanumeric, map the
remaining characters through ASCII lowercasing (`A`..`Z` to `a`..`z`, all
other code points unchanged), and require the result to equal its own
reversal. -/
def specPalindromeAscii (s : List Nat) : Prop :=
  (s.filter charIsAlphanumeric).map toAsciiLowercase =
    ((s.filter charIsAlphanumeric).map toAsciiLowercase).reverse

/-- UTF-8 encoding of one Unicode scalar value (1 to 4 bytes). -/
def utf8EncodeChar (c : Nat) : List Nat :=
  if c < 128 then [c]
  else if c < 2048 then [192 + c / 64, 128 + c % 64]
  else if c < 65536 then [224 + c / 4096, 128 + (c / 64) % 64, 128 + c % 64]
  else [240 + c / 262144, 128 + (c / 4096) % 64, 128 + (c / 64) % 64,
        128 + c % 64]

/-- `s.bytes()`: the UTF-8 encoding of the string. -/
def utf8Bytes (s : List Nat) : List Nat :=
  (s.map utf8EncodeChar).flatten

/-- `hash_string`: starting from `5381`, for each byte
`hash = ((hash << 5).wrapping_add(hash)).wrapping_add(c as u32)` in `u32`
arithmetic; `hash << 5` is multiplication by 32 modulo `2^32`. -/
def hash_string (s : List Nat) : Nat :=
  (utf8Bytes s).foldl
    (fun h b => (((h * 32) % 4294967296 + h) % 4294967296 + b) % 4294967296)
    5381

/-- The hash as the spec's words describe it: the DJB2 fold over a byte
sequence, `hash = hash*33 + b` modulo `2^32`, seeded with 5381. -/
def specDjb2 (bytes : List Nat) : Nat :=
  bytes.foldl (fun h b => (h * 33 + b) % 4294967296) 5381

/-- One worklist step of `split_whitespace`, carrying the current word in
reverse.  A whitespace character closes the current word (if nonempty); any
other character extends it. -/
def splitWsGo : List Nat → List Nat → List (List Nat)
  | [], cur => if cur = [] then [] else [cur.reverse]
  | c :: cs, cur =>
    if charIsWhitespace c then
      if cur = [] then splitWsGo cs [] else cur.reverse :: splitWsGo cs []
    else splitWsGo cs (c :: cur)

/-- `s.split_whitespace()`: the maximal runs of non-whitespace characters, in
order; runs of whitespace produce no empty tokens. -/
def split_whitespace (s : List Nat) : List (List Nat) :=
  splitWsGo s []

/-- Rust's `Iterator::max`: `none` on an empty iterator, otherwise the
maximum, folded left to right. -/
def iterMax : List Nat → Option Nat
  | [] => none
  | x :: xs => some (xs.foldl Nat.max x)

/-- `longest_word_length`:
`s.split_whitespace().map(|word| word.len()).max().unwrap_or(0)`.
Rust's `str::len` is the length in bytes of the token's UTF-8 encoding, not
its character count; the two differ on non-ASCII tokens. -/
def longest_word_length (s : List Nat) : Nat :=
  (iterMax ((split_whitespace s).map (fun w => (utf8Bytes w).length))).getD 0

/-- The quantity the claim describes: the maximum number of characters
(Unicode scalar values) among the whitespace-split tokens, 0 when there are
none. -/
def specLongestWordChars (s : List Nat) : Nat :=
  (iterMax ((split_whitespace s).map List.length)).getD 0

/-- One character of `caesar_encrypt`: ASCII lowercase and uppercase letters
are shifted inside their alphabet, everything else passes through.  The inner
`(c as u8 - b'a') + shift` is `u8` addition, which wraps modulo 256 in
release builds, hence the `% 256` before the `% 26`. -/
def caesarChar (shift : Nat) (c : Nat) : Nat :=
  if 97 ≤ c ∧ c ≤ 122 then ((c - 97 + shift) % 256) % 26 + 97
  else if 65 ≤ c ∧ c ≤ 90 then ((c - 65 + shift) % 256) % 26 + 65
  else c

/-- `caesar_encrypt(s, shift)`: maps `caesarChar` over the characters. -/
def caesar_encrypt (s : List Nat) (shift : Nat) : List Nat :=
  s.map (caesarChar shift)

/-- `add(a, b)`: `a + b` on `i32`, wrapping in release builds. -/
def add (a b : Int) : Int :=
  toI32 (a + b)

/-- The Rust range `0..m` over `i32`, collected: empty when `m ≤ 0`,
otherwise `0, 1, ..., m-1`. -/
def rangeI32 (m : Int) : List Int :=
  if m ≤ 0 then [] else (List.range m.toNat).map (fun i : Nat => (i : Int))

/-- `vec.iter().sum::<i32>()`: left fold of wrapping `i32` addition from 0. -/
def i32Sum (l : List Int) : Int :=
  l.foldl (fun a b => toI32 (a + b)) 0

/-- `memory_intensive(size)`: `(0..size as i32).collect::<Vec<i32>>()` then
sum.  `size as i32` truncates the platform-width unsigned size. -/
def memory_intensive (n : Nat) : Int :=
  i32Sum (rangeI32 (toI32 (n : Int)))

/-- The sum as the spec's words describe it: the integers 0 through n-1,
summed in wrapping 32-bit signed arithmetic. -/
def specWrapSum (n : Nat) : Int :=
  ((List.range n).map (fun i : Nat => (i : Int))).foldl (fun h i => toI32 (h + i)) 0

/-! ### Claim C7 -/

/-- C7: for every input text `t`,
`reverse_string (reverse_string t) = t` — `reverse_string` is an involution. -/
theorem claim_C7 (t : List Nat) :
    reverse_string (reverse_string t) = t := by
  simp [reverse_string]

/-! ### Claim C9 -/

/-- C9: for `i32` inputs `a` and `b`, `add a b` is the two's-complement
wrapping sum: it is congruent to `a + b` modulo `2^32` and lies in the `i32`
range; in particular `add 2147483647 1 = -2147483648`. -/
theorem claim_C9 (a b : Int)
    (ha : -2147483648 ≤ a ∧ a < 2147483648)
    (hb : -2147483648 ≤ b ∧ b < 2147483648) :
    (add a b) % 4294967296 = (a + b) % 4294967296 ∧
      -2147483648 ≤ add a b ∧ add a b < 2147483648 ∧
      add 2147483647 1 = -2147483648 := by
  unfold add toI32
  refine ⟨?_, ?_, ?_, by decide⟩ <;> omega

/-- Witness for C9 at `a = 2147483647`, `b = 1`. -/
theorem claim_C9_witness :
    (add 2147483647 1) % 4294967296 = (2147483647 + 1) % 4294967296 ∧
      -2147483648 ≤ add 2147483647 1 ∧ add 2147483647 1 < 2147483648 ∧
      add 2147483647 1 = -2147483648 :=
  claim_C9 2147483647 1 (by decide) (by decide)

/-! ### Claim C10 -/

/-- C10: for every input text `t` and every shift in `0..=255`,
`caesar_encrypt t shift` has exactly as many Unicode scalar values as `t`. -/
theorem claim_C10 (t : List Nat) (shift : Nat) (hs : shift ≤ 255) :
    (caesar_encrypt t shift).length = t.length := by
  simp [caesar_encrypt]

/-- Witness for C10 at `t = "abc!"`, `shift = 255`. -/
theorem claim_C10_witness :
    (caesar_encrypt [97, 98, 99, 33] 255).length = [97, 98, 99, 33].length :=
  claim_C10 [97, 98, 99, 33] 255 (by decide)

/-! ### Claim C1 -/

/-- The claim "caesar_encrypt(t, s) = caesar_encrypt(t, s mod 26) for all
26 ≤ s ≤ 255" is false: at `t = "z"`, `s = 255` the `u8` addition
`(c - b'a') + shift` wraps modulo 256 before the `% 26`, giving `"y"`,
while shift `255 % 26 = 21` gives `"u"`. -/
theorem claim_C1_counterexample :
    ¬ caesar_encrypt [122] 255 = caesar_encrypt [122] (255 % 26) := by
  decide

/-- Equality of `caesarChar` at a shift and at the shift reduced modulo 26,
valid as long as the `u8` addition cannot wrap. -/
theorem caesarChar_shift_mod (s c : Nat) (hs : s ≤ 230) :
    caesarChar s c = caesarChar (s % 26) c := by
  unfold caesarChar
  split_ifs <;> omega

/-- C1 (amended): for every input text `t` and every shift `s` with
`26 ≤ s ≤ 230`, `caesar_encrypt t s = caesar_encrypt t (s % 26)`; for shifts
in `231..=255` the two can differ on letters near the end of the alphabet,
because the 8-bit addition wraps modulo 256 before the modulo-26 reduction. -/
theorem claim_C1_amended (t : List Nat) (s : Nat) (h26 : 26 ≤ s)
    (hs : s ≤ 230) :
    caesar_encrypt t s = caesar_encrypt t (s % 26) := by
  unfold caesar_encrypt
  exact List.map_congr_left fun c _ => caesarChar_shift_mod s c hs

/-- Witness for the amended C1 at `t = "az"`, `s = 30`. -/
theorem claim_C1_witness :
    26 ≤ 30 ∧ caesar_encrypt [97, 122] 30 = caesar_encrypt [97, 122] (30 % 26) :=
  ⟨by decide, claim_C1_amended [97, 122] 30 (by decide) (by decide)⟩

/-! ### Claim C2 -/

/-- The claimed round trip
`caesar_encrypt (caesar_encrypt t s) (26 - s % 26) = t` for all `s ≤ 255` and
all-letter `t` is false at `t = "z"`, `s = 255`: the first encryption wraps in
`u8` and yields `"y"`, and shifting `"y"` by `26 - 255 % 26 = 5` gives `"d"`. -/
theorem claim_C2_counterexample :
    ¬ caesar_encrypt (caesar_encrypt [122] 255) (26 - 255 % 26) = [122] := by
  decide

/-- Round trip of one character under complementary shifts, when the first
`u8` addition cannot wrap. -/
theorem caesarChar_roundtrip (s c : Nat) (hs : s ≤ 230)
    (hc : 97 ≤ c ∧ c ≤ 122 ∨ 65 ≤ c ∧ c ≤ 90) :
    caesarChar (26 - s % 26) (caesarChar s c) = c := by
  unfold caesarChar
  split_ifs <;> omega

/-- C2 (amended): for every shift `s ≤ 230` and every text `t` of ASCII
letters, `caesar_encrypt (caesar_encrypt t s) (26 - s % 26) = t`; for shifts
in `231..=255` the round trip can fail on letters near the end of the
alphabet, because the 8-bit addition wraps modulo 256 before the modulo-26
reduction. -/
theorem claim_C2_amended (t : List Nat) (s : Nat) (hs : s ≤ 230)
    (ht : ∀ c ∈ t, 97 ≤ c ∧ c ≤ 122 ∨ 65 ≤ c ∧ c ≤ 90) :
    caesar_encrypt (caesar_encrypt t s) (26 - s % 26) = t := by
  unfold caesar_encrypt
  rw [List.map_map]
  induction t with
  | nil => rfl
  | cons c cs ih =>
    simp only [List.map_cons, List.cons.injEq]
    constructor
    · exact caesarChar_roundtrip s c hs (ht c (List.mem_cons_self c cs))
    · exact ih fun d hd => ht d (List.mem_cons_of_mem c hd)

/-- Witness for the amended C2 at `t = "Az"`, `s = 3`. -/
theorem claim_C2_witness :
    caesar_encrypt (caesar_encrypt [65, 122] 3) (26 - 3 % 26) = [65, 122] :=
  claim_C2_amended [65, 122] 3 (by decide) (by decide)

/-! ### Claim C6 -/

/-- C6: `hash_string t` is the DJB2 fold (`hash = hash*33 + b` modulo `2^32`,
seed 5381) over the UTF-8 bytes of `t`; `hash_string "" = 5381`; the result
depends only on the byte sequence. -/
theorem claim_C6 (t u : List Nat) :
    hash_string t = specDjb2 (utf8Bytes t) ∧
      hash_string [] = 5381 ∧
      (utf8Bytes t = utf8Bytes u → hash_string t = hash_string u) := by
  have hstep : ∀ (l : List Nat) (a : Nat),
      l.foldl
          (fun h b => (((h * 32) % 4294967296 + h) % 4294967296 + b) % 4294967296)
          a
        = l.foldl (fun h b => (h * 33 + b) % 4294967296) a := by
    intro l
    induction l with
    | nil => intro a; rfl
    | cons b l ih =>
      intro a
      simp only [List.foldl_cons]
      rw [ih]
      congr 1
      omega
  refine ⟨hstep (utf8Bytes t) 5381, rfl, fun h => ?_⟩
  unfold hash_string
  rw [h]

/-- Witness for C6 at `t = u = "ab"`. -/
theorem claim_C6_witness :
    hash_string [97, 98] = specDjb2 (utf8Bytes [97, 98]) ∧
      hash_string [97, 98] = hash_string [97, 98] :=
  ⟨(claim_C6 [97, 98] [97, 98]).1, (claim_C6 [97, 98] [97, 98]).2.2 rfl⟩

/-! ### Claim C3 -/

/-- The claim that `is_palindrome` lowercases by Unicode simple case folding
is false: on `t = "Éé"` (U+00C9, U+00E9, both alphanumeric) the code's
`to_ascii_lowercase` leaves `É` unchanged and returns `false`, while the
spec's procedure folds `É` to `é` and calls the input a palindrome. -/
theorem claim_C3_counterexample :
    ¬ is_palindrome [201, 233] = specPalindromeFold [201, 233] := by
  decide

/-- C3 (amended): `is_palindrome t` is true exactly when dropping every
non-alphanumeric character (Unicode-aware) and lowercasing the rest by ASCII
lowercasing (not simple case folding: non-ASCII characters keep their case)
yields a sequence equal to its own reversal; empty or all-non-alphanumeric
input yields `true`. -/
theorem claim_C3_amended (t : List Nat) :
    (is_palindrome t = true ↔ specPalindromeAscii t) ∧
      ((∀ c ∈ t, charIsAlphanumeric c = false) → is_palindrome t = true) := by
  constructor
  · simp [is_palindrome, specPalindromeAscii, palindromeCleaned]
  · intro h
    have hf : t.filter charIsAlphanumeric = [] := by
      rw [List.filter_eq_nil_iff]
      intro a ha
      simp [h a ha]
    simp [is_palindrome, palindromeCleaned, hf]

/-- Witness for the amended C3 at `t = " !"` (all non-alphanumeric). -/
theorem claim_C3_witness : is_palindrome [32, 33] = true :=
  (claim_C3_amended [32, 33]).2 (by decide)

/-! ### Claim C8 -/

/-- C8: for every input text `t`,
`is_palindrome t = is_palindrome (reverse_string t)` — the palindrome check
is invariant under reversing its input. -/
theorem claim_C8 (t : List Nat) :
    is_palindrome t = is_palindrome (reverse_string t) := by
  have hc : palindromeCleaned (reverse_string t) = (palindromeCleaned t).reverse := by
    simp [palindromeCleaned, reverse_string, List.filter_reverse,
      List.map_reverse]
  simp only [is_palindrome, hc, List.reverse_reverse]
  rw [Bool.eq_iff_iff]
  simp only [beq_iff_eq]
  exact eq_comm

/-! ### Claim C4 -/

/-- The left fold of `Nat.max` never drops below its accumulator. -/
theorem le_foldl_max (xs : List Nat) (a : Nat) : a ≤ xs.foldl Nat.max a := by
  induction xs generalizing a with
  | nil => exact Nat.le_refl a
  | cons b xs ih =>
    exact Nat.le_trans (Nat.le_max_left a b) (ih (Nat.max a b))

/-- Every member of a list is bounded by the `Nat.max` fold over it. -/
theorem mem_le_foldl_max (xs : List Nat) :
    ∀ a x : Nat, x ∈ xs → x ≤ xs.foldl Nat.max a := by
  induction xs with
  | nil => intro a x hx; cases hx
  | cons b xs ih =>
    intro a x hx
    simp only [List.foldl_cons]
    rcases List.mem_cons.mp hx with rfl | h
    · exact Nat.le_trans (Nat.le_max_right a x) (le_foldl_max xs (Nat.max a x))
    · exact ih (Nat.max a b) x h

/-- The `Nat.max` fold is the accumulator or one of the list's members. -/
theorem foldl_max_mem (xs : List Nat) (a : Nat) :
    xs.foldl Nat.max a = a ∨ xs.foldl Nat.max a ∈ xs := by
  induction xs generalizing a with
  | nil => exact Or.inl rfl
  | cons b xs ih =>
    simp only [List.foldl_cons]
    rcases ih (Nat.max a b) with h | h
    · rcases Nat.le_total a b with hab | hab
      · right
        have hmb : Nat.max a b = b := Nat.max_eq_right hab
        rw [h, hmb]
        exact List.mem_cons_self b xs
      · left
        have hma : Nat.max a b = a := Nat.max_eq_left hab
        rw [h, hma]
    · right
      exact List.mem_cons_of_mem b h

/-- Splitting an all-whitespace string produces no tokens. -/
theorem splitWsGo_all_ws (s : List Nat)
    (h : ∀ c ∈ s, charIsWhitespace c = true) : splitWsGo s [] = [] := by
  induction s with
  | nil => rfl
  | cons c cs ih =>
    have hc := h c (List.mem_cons_self c cs)
    simp only [splitWsGo, hc, if_true, if_pos rfl]
    exact ih fun d hd => h d (List.mem_cons_of_mem c hd)

/-- The claim that `longest_word_length` counts characters is false: on
`t = "é"` (U+00E9, one scalar value, two UTF-8 bytes) the code returns the
byte length 2 of the single token, while the maximum character count among
the tokens is 1. -/
theorem claim_C4_counterexample :
    longest_word_length [233] = 2 ∧ specLongestWordChars [233] = 1 ∧
      ¬ longest_word_length [233] = specLongestWordChars [233] := by
  decide

/-- C4 (amended): `longest_word_length s` is the maximum number of UTF-8
bytes — not of characters; `str::len` counts bytes — among the tokens of the
whitespace split: it bounds every token's byte count, is itself one of those
counts whenever a token exists, and is 0 on empty or all-whitespace input. -/
theorem claim_C4_amended (s : List Nat) :
    (∀ w ∈ split_whitespace s, (utf8Bytes w).length ≤ longest_word_length s) ∧
      (split_whitespace s ≠ [] →
        longest_word_length s ∈
          (split_whitespace s).map (fun w => (utf8Bytes w).length)) ∧
      ((∀ c ∈ s, charIsWhitespace c = true) → longest_word_length s = 0) := by
  refine ⟨?_, ?_, ?_⟩
  · intro w hw
    unfold longest_word_length
    cases hsp : (split_whitespace s).map (fun w => (utf8Bytes w).length) with
    | nil =>
      exact absurd (List.map_eq_nil_iff.mp hsp ▸ hw) (List.not_mem_nil w)
    | cons x xs =>
      simp only [iterMax, Option.getD_some]
      have hmem : (utf8Bytes w).length ∈ x :: xs :=
        hsp ▸ List.mem_map_of_mem (fun w => (utf8Bytes w).length) hw
      rcases List.mem_cons.mp hmem with hx | hx
      · rw [hx]
        exact le_foldl_max xs x
      · exact mem_le_foldl_max xs x (utf8Bytes w).length hx
  · intro hne
    unfold longest_word_length
    cases hsp : (split_whitespace s).map (fun w => (utf8Bytes w).length) with
    | nil => exact absurd (List.map_eq_nil_iff.mp hsp) hne
    | cons x xs =>
      simp only [iterMax, Option.getD_some]
      rcases foldl_max_mem xs x with h | h
      · rw [h]
        exact List.mem_cons_self x xs
      · exact List.mem_cons_of_mem x h
  · intro h
    unfold longest_word_length split_whitespace
    rw [splitWsGo_all_ws s h]
    rfl

/-- Witness for the amended C4 at the all-whitespace input `"  "`. -/
theorem claim_C4_witness : longest_word_length [32, 32] = 0 :=
  (claim_C4_amended [32, 32]).2.2 (by decide)

/-! ### Claim C5 -/

/-- `i32` truncation absorbs an already-truncated left summand. -/
theorem toI32_add_left (a b : Int) : toI32 (toI32 a + b) = toI32 (a + b) := by
  unfold toI32
  omega

/-- A left fold of wrapping `i32` addition is the truncation of the exact
sum. -/
theorem foldl_wadd (l : List Int) :
    ∀ a : Int, l.foldl (fun x y => toI32 (x + y)) (toI32 a) = toI32 (a + l.sum) := by
  induction l with
  | nil =>
    intro a
    simp
  | cons b l ih =>
    intro a
    simp only [List.foldl_cons, List.sum_cons]
    rw [toI32_add_left, ih (a + b)]
    congr 1
    ring

/-- Casting a list of naturals to integers commutes with summation. -/
theorem map_ofNat_sum (l : List Nat) :
    (l.map (fun i : Nat => (i : Int))).sum = (l.sum : Int) := by
  induction l with
  | nil => rfl
  | cons a l ih =>
    rw [List.map_cons, List.sum_cons, List.sum_cons, ih]
    omega

/-- Twice the sum of `0, ..., n-1` is `n * (n - 1)`. -/
theorem range_sum_mul_two (n : Nat) :
    (List.range n).sum * 2 = n * (n - 1) := by
  induction n with
  | zero => rfl
  | succ n ih =>
    rw [List.range_succ, List.sum_append, List.sum_cons, List.sum_nil]
    rcases Nat.eq_zero_or_pos n with rfl | hn
    · rfl
    · have h1 : n - 1 + 2 = n + 1 := by omega
      calc ((List.range n).sum + (n + 0)) * 2
          = (List.range n).sum * 2 + n * 2 := by ring
        _ = n * (n - 1) + n * 2 := by rw [ih]
        _ = n * (n - 1 + 2) := by rw [Nat.mul_add]
        _ = (n + 1) * ((n + 1) - 1) := by rw [h1, Nat.mul_comm, Nat.add_sub_cancel]

/-- The spec's wrapping sum in closed form: the `i32` truncation of the exact
sum of `0, ..., n-1`. -/
theorem specWrapSum_closed (n : Nat) :
    specWrapSum n = toI32 ((List.range n).sum : Int) := by
  unfold specWrapSum
  have h0 : (0 : Int) = toI32 0 := by decide
  rw [h0, foldl_wadd, map_ofNat_sum]
  congr 1
  omega

/-- The claim fails at `n = 2^31`: the cast `size as i32` wraps `2^31` to a
negative number, the collected range is empty and `memory_intensive` returns
0, while the wrapping sum of the integers 0 through `2^31 - 1` is
`-1073741824`. -/
theorem claim_C5_counterexample :
    memory_intensive 2147483648 = 0 ∧
      specWrapSum 2147483648 = -1073741824 ∧
      ¬ memory_intensive 2147483648 = specWrapSum 2147483648 := by
  have hm : memory_intensive 2147483648 = 0 := by decide
  have hsum : (List.range 2147483648).sum = 2305843008139952128 := by
    have h2 := range_sum_mul_two 2147483648
    norm_num at h2
    omega
  have hs : specWrapSum 2147483648 = -1073741824 := by
    rw [specWrapSum_closed, hsum]
    decide
  refine ⟨hm, hs, ?_⟩
  rw [hm, hs]
  decide

/-- C5 (amended): for every size `n < 2^31`, `memory_intensive n` is the sum
of the integers 0 through `n-1` in wrapping 32-bit signed arithmetic; in
particular `memory_intensive 5 = 10` and `memory_intensive 0 = 0`.  For
`n ≥ 2^31` the cast `size as i32` wraps and the collected range can be empty,
so the equality fails. -/
theorem claim_C5_amended (n : Nat) (hn : n < 2147483648) :
    memory_intensive n = specWrapSum n ∧
      memory_intensive 5 = 10 ∧ memory_intensive 0 = 0 := by
  refine ⟨?_, by decide, by decide⟩
  unfold memory_intensive specWrapSum i32Sum rangeI32
  have ht : toI32 (n : Int) = (n : Int) := by
    unfold toI32
    omega
  rw [ht]
  rcases Nat.eq_zero_or_pos n with rfl | h0
  · rfl
  · rw [if_neg (by omega)]
    norm_num

/-- Witness for the amended C5 at `n = 5`. -/
theorem claim_C5_witness :
    memory_intensive 5 = specWrapSum 5 ∧
      memory_intensive 5 = 10 ∧ memory_intensive 0 = 0 :=
  claim_C5_amended 5 (by decide)
